import Mathlib

/-!
Verification of `ping_log_analyze.py`: a shallow embedding of the PING log
parser (`LogItem`, `parse_log`, `create_title`) and of the single-pass
statistics / gap-detection analyzer of the `__main__` block, together with
theorems settling the specification claims.

Modelling conventions:
* Python strings are `String` / `List Char`; the regular expressions are
  embedded as recursive matchers that reproduce the backtracking behaviour of
  `re.match` on the concrete patterns of the source (lazy `.+?` for the
  `domain` group, greedy repetitions, optional groups tried
  present-before-absent).
* Python `float` round-trip times are modelled as exact rationals `ℚ`; the
  command-line `--threshold` is an integer (`type=int` in the source), hence
  `ℤ` cast into `ℚ` for comparisons.
* `datetime.fromtimestamp` keeps the parsed epoch-seconds value as `ℚ` (the
  timezone-dependent calendar presentation is abstracted) but its failure
  modes on a 64-bit platform are modelled: `ValueError` once the calendar
  year passes `datetime.MAXYEAR = 9999`, and `OverflowError` once the
  seconds no longer fit a signed 64-bit `time_t`.  Both thresholds are taken
  exactly on the rational value; the local-timezone shift and the
  float-rounding of the parsed decimal right at the two boundaries are
  abstracted.
* Fallible Python code (`ValueError` from `LogItem.__init__`, `StopIteration`,
  `statistics.median` on `[]`, division by a zero length) is modelled with
  `Option`.
-/

/-- Characters matched by the regex class `\s` (ASCII range), also the set
stripped by Python `str.strip()` on ASCII input. -/
def isSpaceC (c : Char) : Bool :=
  c == ' ' || c == '\t' || c == '\n' || c == '\r' || c == Char.ofNat 11 || c == Char.ofNat 12

/-- Characters matched by the regex class `\d`. -/
def isDigitC (c : Char) : Bool :=
  c.isDigit

/-- Characters matched by the regex class `\w` (ASCII range). -/
def isWordC (c : Char) : Bool :=
  c.isAlphanum || c == '_'

/-- Characters matched by the regex class `[:\dA-Fa-f]` of the `ip` group. -/
def isHexColonC (c : Char) : Bool :=
  c.isDigit || c == ':' || (decide ('A' ≤ c) && decide (c ≤ 'F')) || (decide ('a' ≤ c) && decide (c ≤ 'f'))

/-- Python `str.strip()` on a character list: whitespace removed from both ends. -/
def pyStripList (l : List Char) : List Char :=
  ((l.dropWhile isSpaceC).reverse.dropWhile isSpaceC).reverse

/-- Python `str.rstrip("\n")`: trailing newline characters removed. -/
def pyRstripNl (s : String) : String :=
  String.mk ((s.toList.reverse.dropWhile fun c => c == '\n').reverse)

/-- Matcher for a literal piece of the regex: consumes `pat` from the front of
the input and returns the rest, or fails. -/
def expectLit : List Char → List Char → Option (List Char)
  | [], l => some l
  | _ :: _, [] => none
  | c :: cs, x :: xs => if x = c then expectLit cs xs else none

/-- Matcher for a greedy one-or-more character-class repetition (`\d+`, `\w+`,
`[:\dA-Fa-f]+`).  Greedy matching with backtracking collapses to maximal munch
here because in every use site the following regex element cannot match a
character of the class. -/
def classTok (p : Char → Bool) (l : List Char) : Option (List Char × List Char) :=
  if (l.takeWhile p).isEmpty then none else some (l.takeWhile p, l.dropWhile p)

/-- Matcher for `\d+`. -/
def digits1 (l : List Char) : Option (List Char × List Char) :=
  classTok isDigitC l

/-- Matcher for `\d+(\.\d+)?` (the `timestamp` and `time` groups).  When a dot
follows the integer digits but no digit follows the dot, the optional group is
unmatched and the regex continues at the dot; at both use sites the following
element (`]` or a space) then fails on the dot, so failing outright is
equivalent. -/
def numberTok (l : List Char) : Option (List Char × List Char) :=
  match digits1 l with
  | none => none
  | some (ds, r) =>
    match r with
    | '.' :: r2 =>
      match digits1 r2 with
      | some (fs, r3) => some (ds ++ '.' :: fs, r3)
      | none => none
    | _ => some (ds, r)

/-- Matcher for one repetition `\d{1,3}\.` of the IPv4 alternative.  The greedy
bounded repetition with backtracking collapses to: take at most three leading
digits, then require a dot (any backtracked shorter prefix ends before a digit,
never before a dot). -/
def ipOctetDot (l : List Char) : Option (List Char × List Char) :=
  if ((l.takeWhile isDigitC).take 3).isEmpty then none
  else
    match l.drop ((l.takeWhile isDigitC).take 3).length with
    | '.' :: r => some ((l.takeWhile isDigitC).take 3 ++ ['.'], r)
    | _ => none

/-- Matcher for the IPv4 alternative `(\d{1,3}\.){3}\d{1,3}?` of the `ip` group
followed by the closing `\)`.  The lazy final `\d{1,3}?` succeeds exactly when
the whole remaining digit run has length 1 to 3 and is followed by `)`. -/
def ipV4 (l : List Char) : Option (List Char × List Char) :=
  match ipOctetDot l with
  | none => none
  | some (o1, r1) =>
    match ipOctetDot r1 with
    | none => none
    | some (o2, r2) =>
      match ipOctetDot r2 with
      | none => none
      | some (o3, r3) =>
        if (r3.takeWhile isDigitC).isEmpty || decide (3 < (r3.takeWhile isDigitC).length) then
          none
        else
          match r3.drop (r3.takeWhile isDigitC).length with
          | ')' :: r => some (o1 ++ o2 ++ o3 ++ r3.takeWhile isDigitC, r)
          | _ => none

/-- Matcher for the `ip` alternation `(\d{1,3}\.){3}\d{1,3}?|[:\dA-Fa-f]+`
followed by the closing `\)`, returning the captured address text and the rest
after the parenthesis.  The first alternative is tried first, as in `re`; when
it succeeds the second cannot (it stops at the first dot), so no cross-branch
backtracking is lost. -/
def ipAlt (l : List Char) : Option (List Char × List Char) :=
  match ipV4 l with
  | some v => some v
  | none =>
    match classTok isHexColonC l with
    | none => none
    | some (ds, r) =>
      match r with
      | ')' :: r2 => some (ds, r2)
      | _ => none

/-- Literal `': icmp_seq='` that follows the optional ip group. -/
def icmpLit : List Char :=
  (": icmp_seq=").toList

/-- Literal `' ttl='`. -/
def ttlLit : List Char :=
  (" ttl=").toList

/-- Literal `' time='`. -/
def timeLit : List Char :=
  (" time=").toList

/-- Single-space literal. -/
def spaceLit : List Char :=
  [' ']

/-- Matcher for the tail `: icmp_seq=(?P<seq>\d+) ttl=\d+ time=(?P<time>\d+(\.\d+)?) .+$`
of the record regex, returning the captured `seq` and `time` texts.  The final
`.+$` requires at least one more character and no newline (record lines are
stripped before matching, so no trailing newline remains). -/
def tailParse (l : List Char) : Option (List Char × List Char) :=
  match expectLit icmpLit l with
  | none => none
  | some r1 =>
    match digits1 r1 with
    | none => none
    | some (sq, r2) =>
      match expectLit ttlLit r2 with
      | none => none
      | some r3 =>
        match digits1 r3 with
        | none => none
        | some (_, r4) =>
          match expectLit timeLit r4 with
          | none => none
          | some r5 =>
            match numberTok r5 with
            | none => none
            | some (tm, r6) =>
              match expectLit spaceLit r6 with
              | none => none
              | some r7 =>
                if r7.isEmpty then none
                else if r7.all (fun c => !(c == '\n')) then some (sq, tm) else none

/-- Result of matching the destination descriptor and the record tail: the
`domain` capture, the optional `ip` capture, and the `seq` and `time` captures. -/
structure DescrRes where
  dom : List Char
  ip : Option (List Char)
  seq : List Char
  time : List Char
deriving DecidableEq

/-- Attempt to finish the match at the current domain split with the optional
group absent: the tail must start immediately. -/
def descrNoGroup (dom rest : List Char) : Option DescrRes :=
  match tailParse rest with
  | some (sq, tm) => some ⟨dom, none, sq, tm⟩
  | none => none

/-- Attempt to finish the match at the current domain split.  As in `re`, the
optional group `( \((?P<ip>...)\))?` is tried present before absent. -/
def descrTry (dom rest : List Char) : Option DescrRes :=
  match rest with
  | c1 :: c2 :: r =>
    if c1 = ' ' ∧ c2 = '(' then
      match ipAlt r with
      | some (ipc, r2) =>
        match tailParse r2 with
        | some (sq, tm) => some ⟨dom, some ipc, sq, tm⟩
        | none => descrNoGroup dom rest
      | none => descrNoGroup dom rest
    else descrNoGroup dom rest
  | _ => descrNoGroup dom rest

/-- Lazy matching of `(?P<domain>.+?)` followed by the rest of the pattern:
the accumulated domain (at least one character, growing one character at a
time) is extended only after both finish attempts fail, exactly the order a
lazy quantifier explores. -/
def descrLoop (dom : List Char) : List Char → Option DescrRes
  | [] =>
    match descrTry dom [] with
    | some v => some v
    | none => none
  | c :: rs =>
    match descrTry dom (c :: rs) with
    | some v => some v
    | none => if c = '\n' then none else descrLoop (dom ++ [c]) rs

/-- Matcher for the optional leading `(\[(?P<timestamp>\d+(\.\d+)?)\])?` group:
returns the captured timestamp text (when the group matches) together with the
rest of the input.  When the bracketed form is present but malformed the group
is unmatched and matching continues at the bracket, where the mandatory `\d+`
fails; this is reproduced by returning the input unchanged. -/
def tsStep (l : List Char) : Option (List Char) × List Char :=
  match l with
  | c :: r =>
    if c = '[' then
      match numberTok r with
      | some (tsd, r2) =>
        match r2 with
        | c2 :: r3 => if c2 = ']' then (some tsd, r3) else (none, l)
        | [] => (none, l)
      | none => (none, l)
    else (none, l)
  | [] => (none, [])

/-- Raw captures of `LogItem.LOG_COMPILED_REGEXP`. -/
structure RawParse where
  ts : Option (List Char)
  dom : List Char
  ip : Option (List Char)
  seq : List Char
  time : List Char
deriving DecidableEq

/-- Embedding of `LogItem.LOG_COMPILED_REGEXP.match` on a stripped line:
optional bracketed timestamp, `\s*`, `\d+ \w+ \w+ `, then the lazy domain,
optional parenthesised address and key-value tail. -/
def parseLine (l : List Char) : Option RawParse :=
  match digits1 (((tsStep l).2).dropWhile isSpaceC) with
  | none => none
  | some (_, r2) =>
    match expectLit spaceLit r2 with
    | none => none
    | some r3 =>
      match classTok isWordC r3 with
      | none => none
      | some (_, r4) =>
        match expectLit spaceLit r4 with
        | none => none
        | some r5 =>
          match classTok isWordC r5 with
          | none => none
          | some (_, r6) =>
            match expectLit spaceLit r6 with
            | none => none
            | some r7 =>
              match r7 with
              | [] => none
              | c :: r8 =>
                if c = '\n' then none
                else (descrLoop [c] r8).map fun d => ⟨(tsStep l).1, d.dom, d.ip, d.seq, d.time⟩

/-- Numeric value of a `\d+` capture (Python `int`). -/
def digitsToNat (l : List Char) : ℕ :=
  l.foldl (fun n c => 10 * n + (c.toNat - 48)) 0

/-- Numeric value of a `\d+(\.\d+)?` capture (Python `float`, modelled as the
exact decimal rational). -/
def decToRat (l : List Char) : ℚ :=
  let ipart := l.takeWhile fun c => !(c == '.')
  match l.dropWhile fun c => !(c == '.') with
  | [] => (digitsToNat ipart : ℚ)
  | _ :: frac => (digitsToNat ipart : ℚ) + (digitsToNat frac : ℚ) / ((10 ^ frac.length : ℕ) : ℚ)

/-- Embedding of the `LogItem` record: the fields set by `LogItem.__init__`.
`timestamp` keeps the parsed epoch seconds (the `datetime.fromtimestamp`
conversion is a timezone-dependent presentation step). -/
structure LogItem where
  log_string : String
  timestamp : Option ℚ
  ip : Option String
  seq_number : ℕ
  time : ℚ
  domain : String
deriving DecidableEq

/-- Outcome of `LogItem.__init__` on one line: a constructed record, a
`ValueError` (no regex match, or `datetime.fromtimestamp` rejecting a
calendar year beyond `datetime.MAXYEAR`; suppressed by `parse_log`), or an
`OverflowError` (`datetime.fromtimestamp` on seconds beyond the platform
`time_t`; not a `ValueError`, so it escapes every handler in `parse_log`). -/
inductive LineResult where
  | ok : LogItem → LineResult
  | valueError : LineResult
  | overflowError : LineResult
deriving DecidableEq

/-- The record of a successful line outcome. -/
def LineResult.toItem : LineResult → Option LogItem
  | LineResult.ok item => some item
  | LineResult.valueError => none
  | LineResult.overflowError => none

/-- Smallest epoch-second count on which `datetime.fromtimestamp` raises
`OverflowError` on a platform with signed 64-bit `time_t` (the seconds no
longer fit), `2 ^ 63`.  The rounding of the parsed decimal to a Python float
right at this boundary is abstracted (the threshold is exact on `ℚ`). -/
def tsOverflowMin : ℚ :=
  9223372036854775808

/-- Smallest non-negative epoch-second count on which
`datetime.fromtimestamp` raises `ValueError` (local calendar year beyond
`datetime.MAXYEAR = 9999`), modelled at the UTC start of year 10000,
`253402300800` seconds; the local-timezone shift of at most a day around
this boundary is abstracted.  The symmetric year-below-`MINYEAR` bound needs
negative timestamps, which the digits-only `timestamp` group never yields. -/
def tsValueErrorMin : ℚ :=
  253402300800

/-- Embedding of `LogItem.__init__`: strip the line, match the record regex
(a failed match raises `ValueError`), convert the timestamp group when
present (`datetime.fromtimestamp` raising past its bounds), and extract the
typed fields. -/
def LogItem.ofString (s : String) : LineResult :=
  match parseLine (pyStripList s.toList) with
  | none => LineResult.valueError
  | some d =>
    match d.ts with
    | none =>
      LineResult.ok
        { log_string := String.mk (pyStripList s.toList)
          timestamp := none
          ip := d.ip.map String.mk
          seq_number := digitsToNat d.seq
          time := decToRat d.time
          domain := String.mk d.dom }
    | some tsd =>
      if tsOverflowMin ≤ decToRat tsd then LineResult.overflowError
      else if tsValueErrorMin ≤ decToRat tsd then LineResult.valueError
      else
        LineResult.ok
          { log_string := String.mk (pyStripList s.toList)
            timestamp := some (decToRat tsd)
            ip := d.ip.map String.mk
            seq_number := digitsToNat d.seq
            time := decToRat d.time
            domain := String.mk d.dom }

/-- Embedding of `parse_log`: every line is offered to `LogItem`; a
`ValueError` is suppressed and the loop continues, so that line is silently
dropped, while an `OverflowError` escapes both the `suppress` block and the
`except StopIteration` clause and aborts the call (`none`). -/
def parse_log : List String → Option (List LogItem)
  | [] => some []
  | l :: ls =>
    match LogItem.ofString l with
    | LineResult.ok item => (parse_log ls).map fun rest => item :: rest
    | LineResult.valueError => parse_log ls
    | LineResult.overflowError => none

/-- Characters matched by the class `[\d.:]` of `TITLE_REGEXP`. -/
def titleClassC (c : Char) : Bool :=
  c.isDigit || c == '.' || c == ':'

/-- Matcher for the part ` \([\d.:]+\) \d` of `TITLE_REGEXP` that must follow
the greedy `(.+)` group; the trailing `\d+.*` needs only one digit because
`re.match` is a prefix match. -/
def titleAfterMid (l : List Char) : Bool :=
  match l with
  | c1 :: c2 :: r =>
    if c1 = ' ' ∧ c2 = '(' then
      match classTok titleClassC r with
      | none => false
      | some (_, r2) =>
        match r2 with
        | c3 :: c4 :: c5 :: _ => c3 == ')' && c4 == ' ' && isDigitC c5
        | _ => false
    else false
  | _ => false

/-- Search over the split points of the greedy `(.+)` group of `TITLE_REGEXP`:
at least one non-newline character, then the rest of the pattern.  For a
boolean match the greedy exploration order is irrelevant; only the existence
of a split matters. -/
def titleScan : List Char → Bool
  | [] => false
  | c :: rest => !(c == '\n') && (titleAfterMid rest || titleScan rest)

/-- Literal `'PING '` opening `TITLE_REGEXP`. -/
def pingLit : List Char :=
  ("PING ").toList

/-- Embedding of `re.match(TITLE_REGEXP, line)` as a boolean:
`^PING (.+) \([\d.:]+\) \d+.*`. -/
def matchesTitle (l : List Char) : Bool :=
  List.isPrefixOf pingLit l && titleScan (l.drop 5)

/-- Embedding of `create_title`: consume lines until one matches
`TITLE_REGEXP` (the initial empty `line` never matches), return the title text
and the unconsumed rest of the stream; `none` models the `ValueError` raised
when the stream is exhausted. -/
def create_title : List String → Option (String × List String)
  | [] => none
  | l :: ls =>
    if matchesTitle l.toList then some ("Statistics of " ++ pyRstripNl l, ls)
    else create_title ls

/-- One detected discontinuity: the dict `{'start': ..., 'end': ..., 'skipped': ...}`
appended to `chunks_with_skips`. -/
structure Gap where
  start : LogItem
  «end» : LogItem
  skipped : ℤ
deriving DecidableEq

/-- Mutable state of the `for log_item in parsed_log` loop of `__main__`. -/
structure LoopState where
  records_above_threshold : List LogItem
  high_ping_counter : ℕ
  chunks_with_skips : List Gap
  skip_counts : List ℤ
  previous_item : LogItem
  previous_number : ℤ
deriving DecidableEq

/-- Body of the analyzer loop: flag the record when `time > threshold`, and
record a gap exactly when `seq_number != previous_number + 1`, with
`skipped = seq_number - previous_number - 1`. -/
def loopStep (time_threshold : ℤ) (st : LoopState) (log_item : LogItem) : LoopState :=
  { records_above_threshold :=
      st.records_above_threshold ++
        (if (time_threshold : ℚ) < log_item.time then [log_item] else [])
    high_ping_counter :=
      st.high_ping_counter + (if (time_threshold : ℚ) < log_item.time then 1 else 0)
    chunks_with_skips :=
      st.chunks_with_skips ++
        (if (log_item.seq_number : ℤ) ≠ st.previous_number + 1 then
          [⟨st.previous_item, log_item, (log_item.seq_number : ℤ) - st.previous_number - 1⟩]
        else [])
    skip_counts :=
      st.skip_counts ++
        (if (log_item.seq_number : ℤ) ≠ st.previous_number + 1 then
          [(log_item.seq_number : ℤ) - st.previous_number - 1]
        else [])
    previous_item := log_item
    previous_number := (log_item.seq_number : ℤ) }

/-- Initial loop state: `previous_number = parsed_log[0].seq_number - 1` and
`previous_item = parsed_log[0]`. -/
def initState (first : LogItem) : LoopState :=
  { records_above_threshold := []
    high_ping_counter := 0
    chunks_with_skips := []
    skip_counts := []
    previous_item := first
    previous_number := (first.seq_number : ℤ) - 1 }

/-- The analyzer loop run over the whole record list (called with the list
`first :: rest` where `first` is its head). -/
def runLoop (time_threshold : ℤ) (first : LogItem) (log : List LogItem) : LoopState :=
  log.foldl (loopStep time_threshold) (initState first)

/-- Specification-side description of the gaps produced by one pass: for each
record `c` paired with the running previous item `pit` / previous number `pn`,
a gap appears if and only if `c.seq_number ≠ pn + 1`, carrying
`skipped = c.seq_number - pn - 1`. -/
def gapsFrom (pit : LogItem) (pn : ℤ) : List LogItem → List Gap
  | [] => []
  | c :: rest =>
    (if (c.seq_number : ℤ) ≠ pn + 1 then
      [⟨pit, c, (c.seq_number : ℤ) - pn - 1⟩]
    else []) ++ gapsFrom c (c.seq_number : ℤ) rest

/-- Insertion into a sorted list, for the sort performed by `statistics.median`. -/
def insertSorted (x : ℚ) : List ℚ → List ℚ
  | [] => [x]
  | y :: ys => if x ≤ y then x :: y :: ys else y :: insertSorted x ys

/-- Sorting of the data, as done by `statistics.median`. -/
def insSort : List ℚ → List ℚ
  | [] => []
  | x :: xs => insertSorted x (insSort xs)

/-- Python `sum(l) / len(l)`; `none` models the `ZeroDivisionError` on an
empty list. -/
def pyMean (l : List ℚ) : Option ℚ :=
  match l with
  | [] => none
  | _ :: _ => some (l.sum / (l.length : ℚ))

/-- Python `statistics.median`: middle element of the sorted data for odd
length, average of the two middle elements for even length; `none` models the
`StatisticsError` on an empty list. -/
def pyMedian (l : List ℚ) : Option ℚ :=
  match insSort l with
  | [] => none
  | x :: xs =>
    let s := x :: xs
    let n := s.length
    if n % 2 = 1 then s[n / 2]?
    else
      match s[n / 2 - 1]?, s[n / 2]? with
      | some a, some b => some ((a + b) / 2)
      | _, _ => none

/-- Python `max` over rationals; `none` models the `ValueError` on an empty
list. -/
def pyMax : List ℚ → Option ℚ
  | [] => none
  | h :: t => some (t.foldl max h)

/-- Python `max` over integers. -/
def pyMaxZ : List ℤ → Option ℤ
  | [] => none
  | h :: t => some (t.foldl max h)

/-- Python `round(q, 3)`.  CPython rounds half to even; on exact rationals the
only divergence from round-half-up is at exact `.0005` ties, which the analyzed
values never hit, so half-up floor arithmetic is used. -/
def pyRound3 (q : ℚ) : ℚ :=
  ((Rat.floor (q * 1000 + 1 / 2) : ℤ) : ℚ) / 1000

/-- One rendered detail line of the report (`ping {host}: seq=... time=...`
with an optional leading timestamp); the textual float formatting is
presentation and kept structured. -/
structure DetailLine where
  host : String
  seq : ℕ
  time : ℚ
  timestamp : Option ℚ
deriving DecidableEq

/-- Host identifier used by every detail line: `x.ip if x.ip else x.domain`
(a matched `ip` group is never the empty string, so Python truthiness
coincides with `Option` matching). -/
def detailOf (x : LogItem) : DetailLine :=
  { host :=
      match x.ip with
      | some ipv => ipv
      | none => x.domain
    seq := x.seq_number
    time := x.time
    timestamp := x.timestamp }

/-- Aggregates over `records_above_threshold`, computed only when the list is
nonempty (the `if records_above_threshold:` guard): percentage of total,
rounded mean, median. -/
def aboveStats (total : ℕ) : List LogItem → Option (Option (ℚ × ℚ × ℚ))
  | [] => some none
  | x :: xs =>
    match pyMean ((x :: xs).map fun r => r.time), pyMedian ((x :: xs).map fun r => r.time) with
    | some ea, some em =>
      some (some ((((x :: xs).length : ℚ) * 100) / (total : ℚ), pyRound3 ea, em))
    | _, _ => none

/-- Aggregates over `skip_counts`, computed only when `chunks_with_skips` is
nonempty (the `if chunks_with_skips:` guard): rounded mean, median, maximum. -/
def skipStats (skip_counts : List ℤ) : List Gap → Option (Option (ℚ × ℚ × ℤ))
  | [] => some none
  | _ :: _ =>
    match pyMean (skip_counts.map fun z => (z : ℚ)),
        pyMedian (skip_counts.map fun z => (z : ℚ)), pyMaxZ skip_counts with
    | some sa, some sm, some sx => some (some (pyRound3 sa, sm, sx))
    | _, _, _ => none

/-- The assembled report of `__main__` (lines 107-137): overall statistics,
threshold statistics, gap statistics, and the two detail sections. -/
structure Report where
  title : String
  total_records : ℕ
  average_ping : ℚ
  median_ping : ℚ
  maximum_ping : ℚ
  above_count : ℕ
  above_percentage : Option ℚ
  above_average : Option ℚ
  above_median : Option ℚ
  chunks_count : ℕ
  skip_average : Option ℚ
  skip_median : Option ℚ
  skip_max : Option ℤ
  above_details : List DetailLine
  skip_details : List (DetailLine × ℤ × DetailLine)
deriving DecidableEq

/-- Embedding of the report construction of `__main__`: `none` for an empty
record list (the `if parsed_log:` guard fails and no report is generated),
otherwise the loop pass followed by the aggregate computations. -/
def buildReport (title : String) (time_threshold : ℤ) : List LogItem → Option Report
  | [] => none
  | h :: t =>
    let st := runLoop time_threshold h (h :: t)
    match pyMean ((h :: t).map fun x => x.time), pyMedian ((h :: t).map fun x => x.time),
        pyMax ((h :: t).map fun x => x.time) with
    | some avg, some med, some mx =>
      match aboveStats (h :: t).length st.records_above_threshold,
          skipStats st.skip_counts st.chunks_with_skips with
      | some aop, some sop =>
        some
          { title := title
            total_records := (h :: t).length
            average_ping := pyRound3 avg
            median_ping := med
            maximum_ping := mx
            above_count := st.records_above_threshold.length
            above_percentage := aop.map fun v => v.1
            above_average := aop.map fun v => v.2.1
            above_median := aop.map fun v => v.2.2
            chunks_count := st.chunks_with_skips.length
            skip_average := sop.map fun v => v.1
            skip_median := sop.map fun v => v.2.1
            skip_max := sop.map fun v => v.2.2
            above_details := st.records_above_threshold.map detailOf
            skip_details :=
              st.chunks_with_skips.map fun g => (detailOf g.start, g.skipped, detailOf g.«end») }
      | _, _ => none
    | _, _, _ => none

/-- Outcome of one program run: the fatal `sys.exit` on a missing title (no
output file), an uncaught exception aborting the run with a traceback (no
output file; the `OverflowError` escape of `parse_log`), the `no records
found` notice (no output file), or a written report file. -/
inductive RunResult where
  | fatalNoTitle : RunResult
  | crashed : RunResult
  | noRecords : RunResult
  | written : Report → RunResult
deriving DecidableEq

/-- The part of `__main__` after title handling: parse the remaining lines
(an escaping `OverflowError` aborts the run with no output) and either write
the report or print the `no records found` notice. -/
def runAfterTitle (title : String) (time_threshold : ℤ) (rest : List String) : RunResult :=
  match parse_log rest with
  | none => RunResult.crashed
  | some parsed =>
    match buildReport title time_threshold parsed with
    | some rep => RunResult.written rep
    | none => RunResult.noRecords

/-- Embedding of the `__main__` control flow on the stream of input lines:
optional title detection (its failure exits fatally), then parsing and
reporting on the rest of the shared line iterator. -/
def runMain (skip_title : Bool) (time_threshold : ℤ) (lines : List String) : RunResult :=
  match (if skip_title then some ("", lines) else create_title lines) with
  | none => RunResult.fatalNoTitle
  | some (title, rest) => runAfterTitle title time_threshold rest

/-- Token `'icmp_seq='` whose absence from a line prevents a record match. -/
def icmpTok : List Char :=
  ("icmp_seq=").toList

/-- Whether `'icmp_seq='` occurs as a contiguous substring. -/
def hasIcmpToken : List Char → Bool
  | [] => false
  | c :: rest => List.isPrefixOf icmpTok (c :: rest) || hasIcmpToken rest

/-- A concrete record used to instantiate universally quantified theorems. -/
def itemSeq (n : ℕ) (q : ℚ) : LogItem :=
  { log_string := ""
    timestamp := none
    ip := none
    seq_number := n
    time := q
    domain := "h" }

theorem foldl_records_above (th : ℤ) (log : List LogItem) :
    ∀ st : LoopState,
      (log.foldl (loopStep th) st).records_above_threshold
        = st.records_above_threshold ++ log.filter fun x => decide ((th : ℚ) < x.time) := by
  induction log with
  | nil => intro st; simp
  | cons x xs ih =>
    intro st
    simp only [List.foldl_cons, List.filter_cons]
    rw [ih]
    by_cases hx : (th : ℚ) < x.time
    · simp [loopStep, hx]
    · simp [loopStep, hx]

theorem foldl_counter (th : ℤ) (log : List LogItem) :
    ∀ st : LoopState,
      (log.foldl (loopStep th) st).high_ping_counter
        = st.high_ping_counter + (log.filter fun x => decide ((th : ℚ) < x.time)).length := by
  induction log with
  | nil => intro st; simp
  | cons x xs ih =>
    intro st
    simp only [List.foldl_cons, List.filter_cons]
    rw [ih]
    by_cases hx : (th : ℚ) < x.time
    · simp [loopStep, hx]; omega
    · simp [loopStep, hx]

theorem foldl_chunks (th : ℤ) (log : List LogItem) :
    ∀ st : LoopState,
      (log.foldl (loopStep th) st).chunks_with_skips
        = st.chunks_with_skips ++ gapsFrom st.previous_item st.previous_number log := by
  induction log with
  | nil => intro st; simp [gapsFrom]
  | cons x xs ih =>
    intro st
    simp only [List.foldl_cons, gapsFrom]
    rw [ih]
    by_cases hx : (x.seq_number : ℤ) ≠ st.previous_number + 1
    · simp [loopStep, hx]
    · simp [loopStep, hx]

theorem foldl_skip_counts (th : ℤ) (log : List LogItem) :
    ∀ st : LoopState,
      (log.foldl (loopStep th) st).skip_counts
        = st.skip_counts ++ (gapsFrom st.previous_item st.previous_number log).map Gap.skipped := by
  induction log with
  | nil => intro st; simp [gapsFrom]
  | cons x xs ih =>
    intro st
    simp only [List.foldl_cons, gapsFrom]
    rw [ih]
    by_cases hx : (x.seq_number : ℤ) ≠ st.previous_number + 1
    · simp [loopStep, hx]
    · simp [loopStep, hx]

theorem runLoop_chunks (th : ℤ) (h : LogItem) (t : List LogItem) :
    (runLoop th h (h :: t)).chunks_with_skips = gapsFrom h (h.seq_number : ℤ) t := by
  unfold runLoop
  rw [foldl_chunks]
  simp only [initState, gapsFrom, List.nil_append]
  rw [if_neg (by omega)]
  simp

theorem runLoop_skip_counts (th : ℤ) (h : LogItem) (t : List LogItem) :
    (runLoop th h (h :: t)).skip_counts
      = ((runLoop th h (h :: t)).chunks_with_skips).map Gap.skipped := by
  unfold runLoop
  rw [foldl_chunks, foldl_skip_counts]
  simp [initState]

theorem runLoop_above (th : ℤ) (h : LogItem) (t : List LogItem) :
    (runLoop th h (h :: t)).records_above_threshold
      = (h :: t).filter fun x => decide ((th : ℚ) < x.time) := by
  unfold runLoop
  rw [foldl_records_above]
  simp [initState]

theorem runLoop_counter (th : ℤ) (h : LogItem) (t : List LogItem) :
    (runLoop th h (h :: t)).high_ping_counter
      = ((h :: t).filter fun x => decide ((th : ℚ) < x.time)).length := by
  unfold runLoop
  rw [foldl_counter]
  simp [initState]

theorem gapsFrom_nil_of_consecutive :
    ∀ (t : List LogItem) (p : LogItem),
      List.Chain' (fun a b : LogItem => (b.seq_number : ℤ) = (a.seq_number : ℤ) + 1) (p :: t) →
      gapsFrom p (p.seq_number : ℤ) t = [] := by
  intro t
  induction t with
  | nil => intro p _; rfl
  | cons c rest ih =>
    intro p hch
    rw [List.chain'_cons] at hch
    simp only [gapsFrom]
    rw [if_neg (not_ne_iff.mpr hch.1)]
    simpa using ih c hch.2

/-- C1: in the single forward pass with `previous_number` initialised to
`first.seq_number - 1`, a gap is appended if and only if the current sequence
number differs from `previous_number + 1`, carrying
`skipped = current - previous - 1` (the `gapsFrom` characterization); hence a
fully consecutive list yields no gaps, and a jump from 5 to 8 yields exactly
one gap with `skipped = 2`. -/
theorem gap_detection_characterized (th : ℤ) (h : LogItem) (t : List LogItem) :
    (runLoop th h (h :: t)).chunks_with_skips = gapsFrom h (h.seq_number : ℤ) t
    ∧ (List.Chain' (fun a b : LogItem => (b.seq_number : ℤ) = (a.seq_number : ℤ) + 1) (h :: t) →
        (runLoop th h (h :: t)).chunks_with_skips.length = 0)
    ∧ (∀ r s : LogItem, r.seq_number = 5 → s.seq_number = 8 →
        (runLoop th r [r, s]).chunks_with_skips = [⟨r, s, 2⟩]) := by
  refine ⟨runLoop_chunks th h t, fun hch => ?_, fun r s hr hs => ?_⟩
  · rw [runLoop_chunks, gapsFrom_nil_of_consecutive t h hch]
    rfl
  · rw [runLoop_chunks th r [s]]
    simp only [gapsFrom, hr, hs]
    norm_num

/-- Witness for C1 at a concrete pair of records with sequence numbers 5 and 8. -/
theorem gap_detection_characterized_witness :
    (runLoop 1 (itemSeq 5 0) [itemSeq 5 0, itemSeq 8 0]).chunks_with_skips
      = [⟨itemSeq 5 0, itemSeq 8 0, 2⟩] :=
  (gap_detection_characterized 1 (itemSeq 5 0) []).2.2 (itemSeq 5 0) (itemSeq 8 0) rfl rfl

theorem length_filter_split (p : LogItem → Bool) :
    ∀ l : List LogItem,
      (l.filter p).length + (l.filter fun x => !(p x)).length = l.length := by
  intro l
  induction l with
  | nil => rfl
  | cons x xs ih => by_cases hx : p x <;> simp [List.filter_cons, hx] <;> omega

/-- C3: a record enters the exceeding list exactly when its time is strictly
above the threshold (equality is not counted), and the exceeding count plus
the non-exceeding count is the total record count. -/
theorem threshold_filter_characterized (th : ℤ) (h : LogItem) (t : List LogItem) :
    (runLoop th h (h :: t)).records_above_threshold
        = (h :: t).filter (fun x => decide ((th : ℚ) < x.time))
    ∧ (∀ x : LogItem, x ∈ (runLoop th h (h :: t)).records_above_threshold ↔
        x ∈ h :: t ∧ (th : ℚ) < x.time)
    ∧ (∀ x : LogItem, x.time = (th : ℚ) →
        x ∉ (runLoop th h (h :: t)).records_above_threshold)
    ∧ (runLoop th h (h :: t)).records_above_threshold.length
        + ((h :: t).filter fun x => !(decide ((th : ℚ) < x.time))).length
        = (h :: t).length
    ∧ (runLoop th h (h :: t)).high_ping_counter
        = (runLoop th h (h :: t)).records_above_threshold.length := by
  have hmem : ∀ x : LogItem, x ∈ (runLoop th h (h :: t)).records_above_threshold ↔
      x ∈ h :: t ∧ (th : ℚ) < x.time := by
    intro x
    rw [runLoop_above, List.mem_filter]
    simp
  refine ⟨runLoop_above th h t, hmem, fun x hx hmem2 => ?_, ?_, ?_⟩
  · have := (hmem x).mp hmem2
    rw [hx] at this
    exact lt_irrefl _ this.2
  · rw [runLoop_above]
    exact length_filter_split _ _
  · rw [runLoop_counter, runLoop_above]

/-- Witness for C3 at a concrete record whose time equals the threshold. -/
theorem threshold_filter_characterized_witness :
    itemSeq 1 1 ∉ (runLoop 1 (itemSeq 1 1) [itemSeq 1 1]).records_above_threshold :=
  (threshold_filter_characterized 1 (itemSeq 1 1) []).2.2.1 (itemSeq 1 1) (by norm_num [itemSeq])

theorem gapsFrom_mem :
    ∀ (l1 : List LogItem) (pit : LogItem) (pn : ℤ) (p c : LogItem) (l2 : List LogItem),
      (c.seq_number : ℤ) ≠ (p.seq_number : ℤ) + 1 →
      (⟨p, c, (c.seq_number : ℤ) - (p.seq_number : ℤ) - 1⟩ : Gap)
        ∈ gapsFrom pit pn (l1 ++ p :: c :: l2) := by
  intro l1
  induction l1 with
  | nil =>
    intro pit pn p c l2 hne
    simp only [List.nil_append, gapsFrom]
    rw [if_pos hne]
    simp
  | cons d l1 ih =>
    intro pit pn p c l2 hne
    simp only [List.cons_append, gapsFrom]
    exact List.mem_append_right _ (ih d (d.seq_number : ℤ) p c l2 hne)

/-- C7: an adjacent pair whose later sequence number is not greater than the
earlier one is still recorded as a gap under the same arithmetic, with a zero
or negative `skipped` value. -/
theorem out_of_order_gap (th : ℤ) (h : LogItem) (t l1 l2 : List LogItem) (p c : LogItem)
    (hsplit : h :: t = l1 ++ p :: c :: l2)
    (hle : (c.seq_number : ℤ) ≤ (p.seq_number : ℤ)) :
    (⟨p, c, (c.seq_number : ℤ) - (p.seq_number : ℤ) - 1⟩ : Gap)
        ∈ (runLoop th h (h :: t)).chunks_with_skips
    ∧ (c.seq_number : ℤ) - (p.seq_number : ℤ) - 1 ≤ 0 := by
  have hne : (c.seq_number : ℤ) ≠ (p.seq_number : ℤ) + 1 := by omega
  refine ⟨?_, by omega⟩
  rw [runLoop_chunks]
  cases l1 with
  | nil =>
    obtain ⟨rfl, rfl⟩ : h = p ∧ t = c :: l2 := by
      rw [List.nil_append] at hsplit
      exact ⟨(List.cons.injEq _ _ _ _ ▸ hsplit).1, (List.cons.injEq _ _ _ _ ▸ hsplit).2⟩
    simp only [gapsFrom]
    rw [if_pos hne]
    simp
  | cons d l1 =>
    obtain ⟨rfl, rfl⟩ : h = d ∧ t = l1 ++ p :: c :: l2 := by
      rw [List.cons_append] at hsplit
      exact ⟨(List.cons.injEq _ _ _ _ ▸ hsplit).1, (List.cons.injEq _ _ _ _ ▸ hsplit).2⟩
    exact gapsFrom_mem l1 _ _ p c l2 hne

/-- Witness for C7 at a concrete duplicated sequence number. -/
theorem out_of_order_gap_witness :
    (⟨itemSeq 5 0, itemSeq 5 0, -1⟩ : Gap)
        ∈ (runLoop 1 (itemSeq 5 0) [itemSeq 5 0, itemSeq 5 0]).chunks_with_skips :=
  (out_of_order_gap 1 (itemSeq 5 0) [itemSeq 5 0] [] [] (itemSeq 5 0) (itemSeq 5 0)
    rfl (le_refl _)).1

theorem insertSorted_length (x : ℚ) :
    ∀ l : List ℚ, (insertSorted x l).length = l.length + 1 := by
  intro l
  induction l with
  | nil => rfl
  | cons y ys ih => by_cases h : x ≤ y <;> simp [insertSorted, h, ih]

theorem insSort_length : ∀ l : List ℚ, (insSort l).length = l.length := by
  intro l
  induction l with
  | nil => rfl
  | cons x xs ih => simp [insSort, insertSorted_length, ih]

theorem pyMedian_isSome (l : List ℚ) (hl : l ≠ []) : ∃ q, pyMedian l = some q := by
  unfold pyMedian
  cases hs : insSort l with
  | nil =>
    have hlen := insSort_length l
    rw [hs] at hlen
    exact absurd (List.length_eq_zero.mp hlen.symm) hl
  | cons x xs =>
    simp only []
    by_cases hodd : (x :: xs).length % 2 = 1
    · rw [if_pos hodd]
      have hlt : (x :: xs).length / 2 < (x :: xs).length :=
        Nat.div_lt_self (by simp) (by omega)
      exact ⟨_, List.getElem?_eq_getElem hlt⟩
    · rw [if_neg hodd]
      have hge : 2 ≤ (x :: xs).length := by
        have : 1 ≤ (x :: xs).length := by simp
        omega
      have hlt1 : (x :: xs).length / 2 - 1 < (x :: xs).length := by omega
      have hlt2 : (x :: xs).length / 2 < (x :: xs).length := by omega
      rw [List.getElem?_eq_getElem hlt1, List.getElem?_eq_getElem hlt2]
      exact ⟨_, rfl⟩

theorem aboveStats_total (total : ℕ) (abv : List LogItem) :
    ∃ v, aboveStats total abv = some v := by
  cases abv with
  | nil => exact ⟨none, rfl⟩
  | cons x xs =>
    obtain ⟨em, hem⟩ := pyMedian_isSome ((x :: xs).map fun r => r.time) (by simp)
    simp only [aboveStats, hem]
    exact ⟨_, rfl⟩

theorem skipStats_total (chunks : List Gap) (sc : List ℤ)
    (hlen : chunks.length = sc.length) :
    ∃ v, skipStats sc chunks = some v := by
  cases chunks with
  | nil => exact ⟨none, rfl⟩
  | cons g gs =>
    cases sc with
    | nil => simp at hlen
    | cons z zs =>
      obtain ⟨em, hem⟩ := pyMedian_isSome ((z :: zs).map fun w => (w : ℚ)) (by simp)
      unfold skipStats
      rw [hem]
      exact ⟨_, rfl⟩

theorem buildReport_total (title : String) (th : ℤ) (h : LogItem) (t : List LogItem) :
    ∃ r, buildReport title th (h :: t) = some r := by
  obtain ⟨avg, havg⟩ : ∃ q, pyMean ((h :: t).map fun x => x.time) = some q := ⟨_, rfl⟩
  obtain ⟨med, hmed⟩ := pyMedian_isSome ((h :: t).map fun x => x.time) (by simp)
  obtain ⟨mx, hmx⟩ : ∃ q, pyMax ((h :: t).map fun x => x.time) = some q := ⟨_, rfl⟩
  obtain ⟨aop, hab⟩ :=
    aboveStats_total (h :: t).length (runLoop th h (h :: t)).records_above_threshold
  obtain ⟨sop, hsk⟩ :=
    skipStats_total (runLoop th h (h :: t)).chunks_with_skips
      (runLoop th h (h :: t)).skip_counts
      (by rw [runLoop_skip_counts]; simp)
  simp only [buildReport, havg, hmed, hmx, hab, hsk]
  exact ⟨_, rfl⟩

/-- C8: given records satisfying the §3 invariants the analyzer never fails:
all aggregate computations are guarded by the relevant non-emptiness
conditions and produce a report, while the empty list yields the distinguished
empty result (`none`, the `if parsed_log:` guard) rather than an error. -/
theorem analyzer_never_fails (title : String) (th : ℤ) (log : List LogItem)
    (hinv : ∀ x ∈ log, 0 ≤ x.time) :
    (log ≠ [] → ∃ r, buildReport title th log = some r)
    ∧ buildReport title th [] = none := by
  refine ⟨fun hne => ?_, rfl⟩
  cases log with
  | nil => exact absurd rfl hne
  | cons h t => exact buildReport_total title th h t

/-- Witness for C8 at a concrete one-record list. -/
theorem analyzer_never_fails_witness :
    ∃ r, buildReport "" 1 [itemSeq 1 0] = some r :=
  (analyzer_never_fails "" 1 [itemSeq 1 0] (by simp [itemSeq])).1 (by simp)

theorem create_title_eq_none :
    ∀ lines : List String,
      (create_title lines = none ↔ ∀ l ∈ lines, matchesTitle l.toList = false) := by
  intro lines
  induction lines with
  | nil => simp [create_title]
  | cons l ls ih =>
    by_cases hl : matchesTitle l.toList = true
    · have hl2 : matchesTitle l.data = true := hl
      simp [create_title, hl2, hl]
    · have hl2 : matchesTitle l.data = false := by simpa using hl
      simp [create_title, hl2, ih]

theorem runAfterTitle_ne_fatal (title : String) (th : ℤ) (rest : List String) :
    runAfterTitle title th rest ≠ RunResult.fatalNoTitle := by
  unfold runAfterTitle
  split
  · simp
  · split <;> simp

/-- C5: an empty parsed record set is not an error: whether the title was
found or skipped, the run ends in the `no records found` notice and no report
is generated or written. -/
theorem empty_records_notice (th : ℤ) (lines : List String) :
    (∀ title rest, create_title lines = some (title, rest) → parse_log rest = some [] →
        runMain false th lines = RunResult.noRecords)
    ∧ (parse_log lines = some [] → runMain true th lines = RunResult.noRecords) := by
  constructor
  · intro title rest hct hpl
    unfold runMain
    rw [if_neg (by simp), hct]
    show runAfterTitle title th rest = RunResult.noRecords
    unfold runAfterTitle
    rw [hpl]
    rfl
  · intro hpl
    show runAfterTitle "" th lines = RunResult.noRecords
    unfold runAfterTitle
    rw [hpl]
    rfl

/-- Witness for C5 at a concrete input holding only a title line. -/
theorem empty_records_notice_witness :
    runMain false 1 ["PING h (1.2) 5 x"] = RunResult.noRecords :=
  (empty_records_notice 1 ["PING h (1.2) 5 x"]).1
    ("Statistics of " ++ pyRstripNl "PING h (1.2) 5 x") [] (by decide) rfl

/-- C10: when title detection is enabled, every line up to and including the
first title-matching line is consumed by the title search and discarded: the
input decomposes as non-matching lines, the matching title line, and the rest,
and the analyzed records are exactly those parsed from the rest. -/
theorem title_prefix_consumed (th : ℤ) :
    ∀ (lines : List String) (title : String) (rest : List String),
      create_title lines = some (title, rest) →
      (∃ pre ttl, lines = pre ++ ttl :: rest
          ∧ matchesTitle ttl.toList = true
          ∧ (∀ p ∈ pre, matchesTitle p.toList = false)
          ∧ title = "Statistics of " ++ pyRstripNl ttl)
      ∧ runMain false th lines = runAfterTitle title th rest := by
  intro lines
  induction lines with
  | nil => intro title rest h; cases h
  | cons l ls ih =>
    intro title rest hct
    by_cases hl : matchesTitle l.toList
    · have hpr : title = "Statistics of " ++ pyRstripNl l ∧ rest = ls := by
        rw [create_title, if_pos hl] at hct
        exact ⟨(Prod.mk.injEq _ _ _ _ ▸ Option.some.injEq _ _ ▸ hct).1.symm,
          (Prod.mk.injEq _ _ _ _ ▸ Option.some.injEq _ _ ▸ hct).2.symm⟩
      obtain ⟨rfl, rfl⟩ := hpr
      refine ⟨⟨[], l, by simp, hl, by simp, rfl⟩, ?_⟩
      unfold runMain
      rw [if_neg (by simp), create_title, if_pos hl]
    · have hct2 : create_title ls = some (title, rest) := by
        rw [create_title, if_neg hl] at hct
        exact hct
      obtain ⟨⟨pre, ttl, heq, httl, hpre, htitle⟩, _⟩ := ih title rest hct2
      refine ⟨⟨l :: pre, ttl, by simp [heq], httl, ?_, htitle⟩, ?_⟩
      · intro p hp
        rcases List.mem_cons.mp hp with rfl | hp2
        · simpa using hl
        · exact hpre p hp2
      · unfold runMain
        rw [if_neg (by simp), create_title, if_neg hl, hct2]

/-- Witness for C10 at a concrete input with a record-shaped line before the
title. -/
theorem title_prefix_consumed_witness :
    runMain false 1
        ["1 64 bytes from h (1.2.3.4): icmp_seq=1 ttl=64 time=9.5 ms",
          "PING h (1.2) 5 x", "noise"]
      = runAfterTitle ("Statistics of " ++ pyRstripNl "PING h (1.2) 5 x") 1 ["noise"] :=
  (title_prefix_consumed 1
    ["1 64 bytes from h (1.2.3.4): icmp_seq=1 ttl=64 time=9.5 ms",
      "PING h (1.2) 5 x", "noise"]
    ("Statistics of " ++ pyRstripNl "PING h (1.2) 5 x") ["noise"] (by decide)).2

theorem buildReport_fields (title : String) (th : ℤ) (log : List LogItem) (rep : Report)
    (hb : buildReport title th log = some rep) :
    ∃ h t, log = h :: t
      ∧ rep.above_details = ((runLoop th h (h :: t)).records_above_threshold).map detailOf
      ∧ rep.skip_details = ((runLoop th h (h :: t)).chunks_with_skips).map
          fun g => (detailOf g.start, g.skipped, detailOf g.«end») := by
  cases log with
  | nil => cases hb
  | cons h t =>
    refine ⟨h, t, rfl, ?_⟩
    simp only [buildReport] at hb
    split at hb
    · split at hb
      · cases hb
        exact ⟨rfl, rfl⟩
      · cases hb
    · cases hb

/-- C9: the host identifier of every report detail line is the parenthesised
address captured by the `ip` group when the destination descriptor carried
one, and the bare descriptor text (`domain`) otherwise; and every detail line
of any generated report is built through that host selection. -/
theorem host_identifier (s : String) (r : LogItem) (_hp : LogItem.ofString s = LineResult.ok r) :
    ((∀ a, r.ip = some a → (detailOf r).host = a)
      ∧ (r.ip = none → (detailOf r).host = r.domain))
    ∧ (∀ (title : String) (th : ℤ) (log : List LogItem) (rep : Report),
        buildReport title th log = some rep →
        ∃ h t, log = h :: t
          ∧ rep.above_details = ((runLoop th h (h :: t)).records_above_threshold).map detailOf
          ∧ rep.skip_details = ((runLoop th h (h :: t)).chunks_with_skips).map
              fun g => (detailOf g.start, g.skipped, detailOf g.«end»)) := by
  refine ⟨⟨fun a ha => ?_, fun hn => ?_⟩,
    fun title th log rep hb => buildReport_fields title th log rep hb⟩
  · simp [detailOf, ha]
  · simp [detailOf, hn]

/-- Input lines of the worked three-record example. -/
def demoLine1 : String :=
  "1 64 bytes from host (1.2.3.4): icmp_seq=1 ttl=64 time=0.5 ms"

def demoLine2 : String :=
  "2 64 bytes from host (1.2.3.4): icmp_seq=2 ttl=64 time=2.0 ms"

def demoLine3 : String :=
  "3 64 bytes from host (1.2.3.4): icmp_seq=4 ttl=64 time=0.9 ms"

/-- Parsed records of the worked three-record example (the scenario theorem
shows the `parse_log` call indeed returns them). -/
def demoLog : List LogItem :=
  (parse_log [demoLine1, demoLine2, demoLine3]).getD []

/-- The record parsed from the first example line. -/
def demoItem1 : LogItem :=
  { log_string := demoLine1
    timestamp := none
    ip := some "1.2.3.4"
    seq_number := 1
    time := 1 / 2
    domain := "from host" }

/-- A record line whose descriptor has no parenthesised address. -/
def demoBareLine : String :=
  "1 64 bytes from myhost: icmp_seq=3 ttl=64 time=7 ms"

/-- The record parsed from `demoBareLine`. -/
def demoBareItem : LogItem :=
  { log_string := demoBareLine
    timestamp := none
    ip := none
    seq_number := 3
    time := 7
    domain := "from myhost" }

section

attribute [local semireducible] Rat.add Rat.mul Rat.sub Rat.inv

/-- C2: on the three example lines with threshold 1, all three lines parse,
the total is 3, the rounded average is 1.133, one record (the `icmp_seq=2`
one) is above the threshold, and one gap with `skipped = 1` lies between the
`seq=2` and `seq=4` records. -/
theorem demo_scenario :
    parse_log [demoLine1, demoLine2, demoLine3] = some demoLog
    ∧ demoLog.length = 3
    ∧ (demoLog.map fun r => r.seq_number) = [1, 2, 4]
    ∧ (demoLog.map fun r => r.time) = [1 / 2, 2, 9 / 10]
    ∧ (buildReport "" 1 demoLog).map Report.total_records = some 3
    ∧ (buildReport "" 1 demoLog).map Report.average_ping = some (1133 / 1000)
    ∧ (buildReport "" 1 demoLog).map Report.above_count = some 1
    ∧ (buildReport "" 1 demoLog).map (fun rep => rep.above_details.map DetailLine.seq)
        = some [2]
    ∧ (buildReport "" 1 demoLog).map Report.chunks_count = some 1
    ∧ (buildReport "" 1 demoLog).map
          (fun rep => rep.skip_details.map fun g => (g.1.seq, g.2.1, g.2.2.seq))
        = some [(2, 1, 4)] := by
  decide

/-- Witness for C9 at two concrete lines, one with a parenthesised address and
one without. -/
theorem host_identifier_witness :
    LogItem.ofString demoLine1 = LineResult.ok demoItem1
    ∧ (detailOf demoItem1).host = "1.2.3.4"
    ∧ LogItem.ofString demoBareLine = LineResult.ok demoBareItem
    ∧ (detailOf demoBareItem).host = "from myhost" :=
  ⟨by decide,
    (host_identifier demoLine1 demoItem1 (by decide)).1.1 "1.2.3.4" (by decide),
    by decide,
    (host_identifier demoBareLine demoBareItem (by decide)).1.2 (by decide)⟩

end

/-- Suffix relation used to track that each matcher stage consumes a prefix. -/
def SufOf (r l : List Char) : Prop :=
  ∃ a, l = a ++ r

theorem sufOf_refl (l : List Char) : SufOf l l :=
  ⟨[], rfl⟩

theorem sufOf_trans {r m l : List Char} (h1 : SufOf r m) (h2 : SufOf m l) : SufOf r l := by
  obtain ⟨a, rfl⟩ := h2
  obtain ⟨b, rfl⟩ := h1
  exact ⟨a ++ b, (List.append_assoc a b r).symm⟩

theorem sufOf_cons {r l : List Char} (c : Char) (h : SufOf r l) : SufOf r (c :: l) := by
  obtain ⟨a, rfl⟩ := h
  exact ⟨c :: a, rfl⟩

theorem sufOf_dropWhile (p : Char → Bool) (l : List Char) : SufOf (l.dropWhile p) l :=
  ⟨l.takeWhile p, (List.takeWhile_append_dropWhile p l).symm⟩

theorem sufOf_drop_cons {l r : List Char} {n : ℕ} {c : Char} (h : l.drop n = c :: r) :
    SufOf r l := by
  refine ⟨l.take n ++ [c], ?_⟩
  conv_lhs => rw [← List.take_append_drop n l]
  rw [h, List.append_assoc]
  rfl

theorem expectLit_eq : ∀ (pat l r : List Char), expectLit pat l = some r → l = pat ++ r := by
  intro pat
  induction pat with
  | nil =>
    intro l r h
    cases h
    rfl
  | cons c cs ih =>
    intro l r h
    cases l with
    | nil => cases h
    | cons x xs =>
      by_cases hx : x = c
      · rw [expectLit, if_pos hx] at h
        subst hx
        rw [List.cons_append, ← ih xs r h]
      · rw [expectLit, if_neg hx] at h
        cases h

theorem expectLit_suf {pat l r : List Char} (h : expectLit pat l = some r) : SufOf r l :=
  ⟨pat, expectLit_eq pat l r h⟩

theorem classTok_eq {p : Char → Bool} {l ds r : List Char}
    (h : classTok p l = some (ds, r)) : ds = l.takeWhile p ∧ r = l.dropWhile p := by
  unfold classTok at h
  split at h
  · cases h
  · cases h
    exact ⟨rfl, rfl⟩

theorem classTok_suf {p : Char → Bool} {l ds r : List Char}
    (h : classTok p l = some (ds, r)) : SufOf r l := by
  rw [(classTok_eq h).2]
  exact sufOf_dropWhile p l

theorem numberTok_suf {l tm r : List Char} (h : numberTok l = some (tm, r)) : SufOf r l := by
  unfold numberTok at h
  split at h
  · cases h
  · rename_i ds r1 hd
    have hs1 : SufOf r1 l := classTok_suf hd
    split at h
    · rename_i r2
      split at h
      · rename_i fs r3 hf
        cases h
        exact sufOf_trans (sufOf_trans (classTok_suf hf) ⟨['.'], rfl⟩) hs1
      · cases h
    · cases h
      exact hs1

theorem ipOctetDot_suf {l o r : List Char} (h : ipOctetDot l = some (o, r)) : SufOf r l := by
  unfold ipOctetDot at h
  split at h
  · cases h
  · split at h
    · rename_i r2 hdrop
      cases h
      exact sufOf_drop_cons hdrop
    · cases h

theorem ipV4_suf {l o r : List Char} (h : ipV4 l = some (o, r)) : SufOf r l := by
  unfold ipV4 at h
  split at h
  · cases h
  · rename_i o1 r1 h1
    split at h
    · cases h
    · rename_i o2 r2 h2
      split at h
      · cases h
      · rename_i o3 r3 h3
        split at h
        · cases h
        · split at h
          · rename_i r4 hdrop
            cases h
            exact sufOf_trans (sufOf_drop_cons hdrop)
              (sufOf_trans (ipOctetDot_suf h3)
                (sufOf_trans (ipOctetDot_suf h2) (ipOctetDot_suf h1)))
          · cases h

theorem ipAlt_suf {l o r : List Char} (h : ipAlt l = some (o, r)) : SufOf r l := by
  unfold ipAlt at h
  split at h
  · rename_i v hv
    cases h
    exact ipV4_suf hv
  · split at h
    · cases h
    · rename_i ds r1 h2
      split at h
      · rename_i r2
        cases h
        exact sufOf_trans ⟨[')'], rfl⟩ (classTok_suf h2)
      · cases h

/-- Occurrence of the literal `': icmp_seq='` somewhere in the list. -/
def IcmpIn (l : List Char) : Prop :=
  ∃ a b, l = a ++ icmpLit ++ b

theorem icmpIn_cons {l : List Char} (c : Char) (h : IcmpIn l) : IcmpIn (c :: l) := by
  obtain ⟨a, b, rfl⟩ := h
  exact ⟨c :: a, b, rfl⟩

theorem icmpIn_of_suf {m l : List Char} (hs : SufOf m l) (h : IcmpIn m) : IcmpIn l := by
  obtain ⟨u, rfl⟩ := hs
  obtain ⟨a, b, rfl⟩ := h
  exact ⟨u ++ a, b, by simp⟩

theorem tailParse_icmp {l : List Char} {v : List Char × List Char}
    (h : tailParse l = some v) : IcmpIn l := by
  unfold tailParse at h
  split at h
  · cases h
  · rename_i r1 he
    exact ⟨[], r1, expectLit_eq icmpLit l r1 he⟩

theorem descrNoGroup_icmp {dom rest : List Char} {v : DescrRes}
    (h : descrNoGroup dom rest = some v) : IcmpIn rest := by
  unfold descrNoGroup at h
  split at h
  · rename_i sq tm htp
    exact tailParse_icmp htp
  · cases h

theorem descrTry_icmp {dom rest : List Char} {v : DescrRes}
    (h : descrTry dom rest = some v) : IcmpIn rest := by
  unfold descrTry at h
  split at h
  · rename_i c1 c2 r
    split at h
    · rename_i hc
      split at h
      · rename_i ipc r2 hip
        split at h
        · rename_i sq tm htp
          obtain ⟨rfl, rfl⟩ : c1 = ' ' ∧ c2 = '(' := hc
          exact icmpIn_cons ' ' (icmpIn_cons '(' (icmpIn_of_suf (ipAlt_suf hip) (tailParse_icmp htp)))
        · exact descrNoGroup_icmp h
      · exact descrNoGroup_icmp h
    · exact descrNoGroup_icmp h
  · exact descrNoGroup_icmp h

theorem descrLoop_icmp :
    ∀ (rest dom : List Char) {v : DescrRes}, descrLoop dom rest = some v → IcmpIn rest := by
  intro rest
  induction rest with
  | nil =>
    intro dom v h
    unfold descrLoop at h
    split at h
    · rename_i w hw
      exact descrTry_icmp hw
    · cases h
  | cons c rs ih =>
    intro dom v h
    unfold descrLoop at h
    split at h
    · rename_i w hw
      exact descrTry_icmp hw
    · split at h
      · cases h
      · exact icmpIn_cons c (ih (dom ++ [c]) h)

theorem tsStep_suf : ∀ l : List Char, SufOf (tsStep l).2 l := by
  intro l
  unfold tsStep
  split
  · rename_i c r
    split
    · split
      · rename_i pr tsd r2 hn
        split
        · rename_i c2 r3
          split
          · rename_i hc2
            exact sufOf_cons c (sufOf_trans ⟨[c2], rfl⟩ (numberTok_suf hn))
          · exact sufOf_refl _
        · exact sufOf_refl _
      · exact sufOf_refl _
    · exact sufOf_refl _
  · exact sufOf_refl _

theorem parseLine_icmp {l : List Char} {v : RawParse} (h : parseLine l = some v) :
    IcmpIn l := by
  unfold parseLine at h
  split at h
  · cases h
  · rename_i d1 r2 h1
    split at h
    · cases h
    · rename_i r3 h2
      split at h
      · cases h
      · rename_i w1 r4 h3
        split at h
        · cases h
        · rename_i r5 h4
          split at h
          · cases h
          · rename_i w2 r6 h5
            split at h
            · cases h
            · rename_i r7 h6
              split at h
              · cases h
              · rename_i c r8
                split at h
                · cases h
                · rename_i hc
                  obtain ⟨d, hd, _⟩ := Option.map_eq_some'.mp h
                  have hicmp8 : IcmpIn r8 := descrLoop_icmp r8 [c] hd
                  have hicmp7 : IcmpIn (c :: r8) := icmpIn_cons c hicmp8
                  have h6e := expectLit_eq spaceLit r6 (c :: r8) h6
                  have hicmp6 : IcmpIn r6 := icmpIn_of_suf ⟨spaceLit, h6e⟩ hicmp7
                  have hicmp5 : IcmpIn r5 := icmpIn_of_suf (classTok_suf h5) hicmp6
                  have hicmp4 : IcmpIn r4 := icmpIn_of_suf (expectLit_suf h4) hicmp5
                  have hicmp3 : IcmpIn r3 := icmpIn_of_suf (classTok_suf h3) hicmp4
                  have hicmp2 : IcmpIn r2 := icmpIn_of_suf (expectLit_suf h2) hicmp3
                  have hicmp1 : IcmpIn ((tsStep l).2.dropWhile isSpaceC) :=
                    icmpIn_of_suf (classTok_suf h1) hicmp2
                  exact icmpIn_of_suf (tsStep_suf l)
                    (icmpIn_of_suf (sufOf_dropWhile isSpaceC (tsStep l).2) hicmp1)

theorem reverse_dropWhile_sandwich (p : Char → Bool) (m : List Char) :
    m = (m.reverse.dropWhile p).reverse ++ (m.reverse.takeWhile p).reverse := by
  conv_lhs => rw [← List.reverse_reverse m]
  rw [← List.reverse_append, List.takeWhile_append_dropWhile]

theorem strip_sandwich (l : List Char) : ∃ u w, l = u ++ pyStripList l ++ w := by
  refine ⟨l.takeWhile isSpaceC, ((l.dropWhile isSpaceC).reverse.takeWhile isSpaceC).reverse, ?_⟩
  unfold pyStripList
  rw [List.append_assoc]
  conv_lhs => rw [← List.takeWhile_append_dropWhile isSpaceC l]
  congr 1
  exact reverse_dropWhile_sandwich isSpaceC (l.dropWhile isSpaceC)

theorem isPrefixOf_self_append : ∀ (p l : List Char), List.isPrefixOf p (p ++ l) = true := by
  intro p
  induction p with
  | nil => intro l; simp [List.isPrefixOf]
  | cons c cs ih => intro l; simp [List.isPrefixOf, ih]

theorem hasIcmpToken_append : ∀ (a b : List Char), hasIcmpToken (a ++ (icmpTok ++ b)) = true := by
  intro a
  induction a with
  | nil =>
    intro b
    rw [List.nil_append]
    rw [show icmpTok ++ b = 'i' :: ("cmp_seq=".toList ++ b) from rfl]
    unfold hasIcmpToken
    rw [show ('i' : Char) :: ("cmp_seq=".toList ++ b) = icmpTok ++ b from rfl]
    rw [isPrefixOf_self_append]
    simp
  | cons c a ih =>
    intro b
    rw [List.cons_append]
    unfold hasIcmpToken
    rw [ih]
    simp

theorem noIcmpToken_valueError :
    ∀ s : String, hasIcmpToken s.toList = false →
      LogItem.ofString s = LineResult.valueError := by
  intro s hs
  cases hp : parseLine (pyStripList s.toList) with
  | none =>
    unfold LogItem.ofString
    rw [hp]
  | some d =>
    exfalso
    have h1 : IcmpIn (pyStripList s.toList) := parseLine_icmp hp
    obtain ⟨u, w, hw⟩ := strip_sandwich s.toList
    obtain ⟨a, b, hab⟩ := h1
    have h3 : hasIcmpToken s.toList = true := by
      rw [hw, hab]
      rw [show icmpLit = [':', ' '] ++ icmpTok from rfl]
      rw [show u ++ (a ++ ([':', ' '] ++ icmpTok) ++ b) ++ w
          = (u ++ a ++ [':', ' ']) ++ (icmpTok ++ (b ++ w)) from by simp]
      exact hasIcmpToken_append _ _
    rw [hs] at h3
    cases h3

theorem parse_log_filterMap :
    ∀ lines : List String,
      (∀ l ∈ lines, LogItem.ofString l ≠ LineResult.overflowError) →
      parse_log lines = some (lines.filterMap fun l => (LogItem.ofString l).toItem) := by
  intro lines
  induction lines with
  | nil => intro h; rfl
  | cons l ls ih =>
    intro h
    have hls := ih fun x hx => h x (List.mem_cons_of_mem l hx)
    rw [List.filterMap_cons]
    cases ho : LogItem.ofString l with
    | ok item => simp [parse_log, ho, hls, LineResult.toItem]
    | valueError => simp [parse_log, ho, hls, LineResult.toItem]
    | overflowError => exact absurd ho (h l (List.mem_cons_self l ls))

theorem parse_log_eq_none :
    ∀ lines : List String,
      (parse_log lines = none ↔
        ∃ l ∈ lines, LogItem.ofString l = LineResult.overflowError) := by
  intro lines
  induction lines with
  | nil => simp [parse_log]
  | cons l ls ih =>
    cases ho : LogItem.ofString l with
    | ok item => simp [parse_log, ho, ih]
    | valueError => simp [parse_log, ho, ih]
    | overflowError => simp [parse_log, ho]

/-- C4 amended: a line that does not match the record pattern is always
silently dropped without failing (in particular a line with no `icmp_seq=`
token yields no record and affects no count); when no line carries a
bracketed timestamp beyond the platform time range, `parse_log` returns
exactly the records of the accepted lines in input order — where a matching
line is accepted unless its timestamp makes `datetime.fromtimestamp` raise
the suppressed `ValueError` — while a timestamp beyond the platform time
range makes `parse_log` itself fail with an uncaught `OverflowError`. -/
theorem parser_filter_amended :
    (∀ lines : List String,
        (∀ l ∈ lines, LogItem.ofString l ≠ LineResult.overflowError) →
        parse_log lines = some (lines.filterMap fun l => (LogItem.ofString l).toItem))
    ∧ (∀ lines : List String,
        (parse_log lines = none ↔
          ∃ l ∈ lines, LogItem.ofString l = LineResult.overflowError))
    ∧ (∀ s : String, hasIcmpToken s.toList = false →
        LogItem.ofString s = LineResult.valueError) :=
  ⟨parse_log_filterMap, parse_log_eq_none, noIcmpToken_valueError⟩

theorem create_title_mem :
    ∀ (lines : List String) (title : String) (rest : List String),
      create_title lines = some (title, rest) → ∀ l ∈ rest, l ∈ lines := by
  intro lines
  induction lines with
  | nil => intro title rest h; cases h
  | cons x ls ih =>
    intro title rest h l hl
    by_cases hx : matchesTitle x.toList
    · rw [create_title, if_pos hx] at h
      cases h
      exact List.mem_cons_of_mem x hl
    · rw [create_title, if_neg hx] at h
      exact List.mem_cons_of_mem x (ih title rest h l hl)

theorem runAfterTitle_crashed {title : String} {th : ℤ} {rest : List String}
    (h : runAfterTitle title th rest = RunResult.crashed) : parse_log rest = none := by
  unfold runAfterTitle at h
  split at h
  · rename_i hp
    exact hp
  · rename_i parsed hp
    split at h
    · cases h
    · cases h

/-- C6 amended: with title detection requested the run exits fatally (with a
diagnostic and no output file) exactly when no input line matches the title
pattern, and this fatal exit is impossible with detection skipped; the only
other way the whole run aborts is the uncaught `OverflowError` of a record
line whose bracketed timestamp exceeds the platform time range. -/
theorem missing_title_fatal_amended (th : ℤ) (lines : List String) :
    (runMain false th lines = RunResult.fatalNoTitle ↔
        ∀ l ∈ lines, matchesTitle l.toList = false)
    ∧ runMain true th lines ≠ RunResult.fatalNoTitle
    ∧ (∀ skip : Bool, runMain skip th lines = RunResult.crashed →
        ∃ l ∈ lines, LogItem.ofString l = LineResult.overflowError) := by
  refine ⟨?_, ?_, ?_⟩
  · rw [← create_title_eq_none lines]
    unfold runMain
    rw [if_neg (by simp)]
    cases hct : create_title lines with
    | none => simp
    | some pr =>
      constructor
      · intro hw
        exact absurd hw (runAfterTitle_ne_fatal pr.1 th pr.2)
      · intro hn
        cases hn
  · simpa [runMain] using runAfterTitle_ne_fatal "" th lines
  · intro skip h
    cases skip with
    | true =>
      have hc : runAfterTitle "" th lines = RunResult.crashed := by
        unfold runMain at h
        rw [if_pos rfl] at h
        exact h
      exact (parse_log_eq_none lines).mp (runAfterTitle_crashed hc)
    | false =>
      unfold runMain at h
      rw [if_neg (by simp)] at h
      cases hct : create_title lines with
      | none =>
        rw [hct] at h
        cases h
      | some pr =>
        rw [hct] at h
        have hc : runAfterTitle pr.1 th pr.2 = RunResult.crashed := h
        obtain ⟨l, hl, ho⟩ := (parse_log_eq_none pr.2).mp (runAfterTitle_crashed hc)
        exact ⟨l, create_title_mem lines pr.1 pr.2 (by rw [hct]) l hl, ho⟩

/-- Witness for the amended C6 at a concrete record-free, title-free input. -/
theorem missing_title_fatal_amended_witness :
    runMain false 1 ["junk line"] = RunResult.fatalNoTitle :=
  (missing_title_fatal_amended 1 ["junk line"]).1.mpr (by decide)

/-- A record-pattern line whose bracketed timestamp is past the year-9999
boundary of `datetime` but still inside the platform time range. -/
def demoYearLine : String :=
  "[300000000000] 1 64 bytes from h (1.2.3.4): icmp_seq=7 ttl=64 time=0.5 ms"

/-- A record-pattern line whose bracketed timestamp does not fit the platform
signed 64-bit time range. -/
def demoOverflowLine : String :=
  "[10000000000000000000] 1 64 bytes from h (1.2.3.4): icmp_seq=1 ttl=64 time=0.5 ms"

/-- A line matching the title pattern. -/
def demoTitleLine : String :=
  "PING h (1.2.3.4) 56(84) bytes of data."

section

attribute [local semireducible] Rat.add Rat.mul Rat.sub Rat.inv

/-- Counterexample to C4 as stated: both lines match the record pattern (the
regex succeeds on their stripped text), yet the first yields no record (its
`ValueError` is suppressed, silently dropping a matching line) and the second
makes parsing itself fail (an uncaught `OverflowError`). -/
theorem parser_never_fails_cex :
    (parseLine (pyStripList demoYearLine.toList)).isSome = true
    ∧ LogItem.ofString demoYearLine = LineResult.valueError
    ∧ parse_log [demoYearLine] = some []
    ∧ (parseLine (pyStripList demoOverflowLine.toList)).isSome = true
    ∧ LogItem.ofString demoOverflowLine = LineResult.overflowError
    ∧ parse_log [demoOverflowLine] = none := by
  decide

/-- Witness for the amended C4 at a concrete two-line input. -/
theorem parser_filter_amended_witness :
    parse_log [demoLine1, "noise"]
      = some ([demoLine1, "noise"].filterMap fun l => (LogItem.ofString l).toItem)
    ∧ LogItem.ofString "64 bytes from host: seq=1 time=2 ms" = LineResult.valueError :=
  ⟨parser_filter_amended.1 [demoLine1, "noise"] (by decide),
    parser_filter_amended.2.2 "64 bytes from host: seq=1 time=2 ms" (by decide)⟩

/-- Counterexample to C6 as stated: the title line is present and found, yet
the run still aborts — with no output file — through the uncaught
`OverflowError` of the oversized timestamp, so the missing title is not the
only condition that aborts the whole run. -/
theorem missing_title_fatal_cex :
    matchesTitle demoTitleLine.toList = true
    ∧ runMain false 1 [demoTitleLine, demoOverflowLine] = RunResult.crashed
    ∧ runMain true 1 [demoOverflowLine] = RunResult.crashed := by
  decide

end
